import Mathlib

/-!
Verification of the musync Local-Remote Reconciliation Engine.

Shallow embedding of the TypeScript sources:
  * `src/constants.ts`           — quality types, rank table, filename patterns
  * `src/models/song.ts`         — `Song`, `Artist`, `Album`
  * `src/models/local-track.ts`  — `LocalTrack`, `determineQuality`
  * `src/models/config.ts`       — `SyncRecord`
  * `src/utils/format.ts`        — `normalizeForComparison`, `stringSimilarity`,
                                   `levenshteinDistance`
  * `src/services/matcher.ts`    — `normalizeString`, `songNamesMatch`,
                                   `artistsMatch`, `matchSong`, `compareQuality`,
                                   `getBestQuality`, `matchSongsWithTracks`
  * `src/services/scanner.ts`    — `parseFilename`, `detectQuality`
  * `src/services/ncm.ts`        — `buildRc4Sbox`, `rc4Decrypt`, `parseNcmFile`,
                                   `decryptKey`, `decryptNcmFile`
  * `src/storage/database.ts`    — `upsertRecord`, `upsertRecords`

JavaScript numbers used for confidences are modelled as exact rationals (ℚ);
byte values are `Nat` reduced with explicit `% 256`; strings are Lean `String`
(lists of unicode scalar characters), with the JavaScript regex operations of
the source translated into explicit recursive functions below.
-/

namespace Musync

/-- `UserQuality` from `constants.ts`. -/
inductive UserQuality
  | standard
  | high
  | lossless
deriving DecidableEq, Repr

/-- `AudioFormat` from `constants.ts` (`SUPPORTED_AUDIO_FORMATS` plus `other`). -/
inductive AudioFormat
  | mp3
  | flac
  | wav
  | ncm
  | ogg
  | m4a
  | aac
  | other
deriving DecidableEq, Repr

/-- `SyncStatus` from `constants.ts`. -/
inductive SyncStatus
  | synced
  | upgraded
  | deleted
  | pending
deriving DecidableEq, Repr

/-- The `source` field of `LocalTrack`/`SyncRecord` (provenance). -/
inductive TrackSource
  | filename
  | metadata
  | database
deriving DecidableEq, Repr

/-- `Artist` from `models/song.ts`. -/
structure Artist where
  id : Int
  name : String
deriving DecidableEq, Repr

/-- `Album` from `models/song.ts`. -/
structure Album where
  id : Int
  name : String
  picUrl : Option String
deriving DecidableEq, Repr

/-- `Song` from `models/song.ts`. -/
structure Song where
  id : Int
  name : String
  artists : List Artist
  album : Album
  duration : Int
  availableQualities : List String
  available : Bool
  needVip : Bool
deriving DecidableEq, Repr

/-- `LocalTrack` from `models/local-track.ts`. -/
structure LocalTrack where
  filePath : String
  name : String
  artist : String
  album : Option String
  quality : UserQuality
  format : AudioFormat
  fileSize : Nat
  bitrate : Option Nat
  songId : Option Int
  source : TrackSource
deriving DecidableEq, Repr

/-- `SyncRecord` from `models/config.ts`. -/
structure SyncRecord where
  localPath : String
  songId : Option Int
  name : String
  artist : String
  album : Option String
  quality : UserQuality
  syncedAt : String
  status : SyncStatus
  fileModifiedAt : String
  fileSize : Nat
  format : AudioFormat
  bitrate : Option Nat
  source : TrackSource
deriving DecidableEq, Repr

/-! ## JavaScript string primitives

The regex replacements of `normalizeString` / `normalizeForComparison` are
translated into explicit character-list operations. -/

/-- The JavaScript `\s` character class (WhiteSpace and LineTerminator
productions of ECMA-262), by unicode scalar value: space, tab, LF, VT,
FF, CR, NBSP, Ogham space mark, the U+2000-U+200A range, LS, PS, NNBSP,
MMSP, ideographic space and BOM. -/
def isJsWs (c : Char) : Bool :=
  decide (c.toNat = 0x20) || decide (c.toNat = 0x09) || decide (c.toNat = 0x0a) ||
  decide (c.toNat = 0x0b) || decide (c.toNat = 0x0c) || decide (c.toNat = 0x0d) ||
  decide (c.toNat = 0xa0) || decide (c.toNat = 0x1680) ||
  (decide (0x2000 ≤ c.toNat) && decide (c.toNat ≤ 0x200a)) ||
  decide (c.toNat = 0x2028) || decide (c.toNat = 0x2029) || decide (c.toNat = 0x202f) ||
  decide (c.toNat = 0x205f) || decide (c.toNat = 0x3000) || decide (c.toNat = 0xfeff)

/-- JavaScript LineTerminator characters (which `.` does not match):
LF, CR, LS, PS. -/
def isLineTerm (c : Char) : Bool :=
  decide (c.toNat = 0x0a) || decide (c.toNat = 0x0d) ||
  decide (c.toNat = 0x2028) || decide (c.toNat = 0x2029)

/-- Open parenthesis class of the parenthetical-strip regex
(U+0028 and fullwidth U+FF08). -/
def parenOpen (c : Char) : Bool :=
  decide (c.toNat = 0x28) || decide (c.toNat = 0xff08)

/-- Close parenthesis class of the parenthetical-strip regex
(U+0029 and fullwidth U+FF09). -/
def parenClose (c : Char) : Bool :=
  decide (c.toNat = 0x29) || decide (c.toNat = 0xff09)

/-- Index of the close parenthesis chosen by the greedy `.+` of
`[（(].+[)）]` scanning `r` right after an open parenthesis: the last
position `k ≥ 1` holding a close-parenthesis character such that every
character before it is matchable by `.` (not a line terminator). -/
def greedyCloseIdx (r : List Char) : Option Nat :=
  go r 0 none
where
  go : List Char → Nat → Option Nat → Option Nat
    | [], _, best => best
    | c :: cs, i, best =>
      if isLineTerm c then best
      else go cs (i + 1) (if parenClose c = true ∧ 1 ≤ i then some i else best)

/-- Worker for the global replacement `.replace(/[（(].+[)）]/g, '')`.
The fuel argument only forces structural recursion; every step consumes
at least one character, so `fuel = length` never runs out. -/
def replaceParenFuel : Nat → List Char → List Char
  | 0, l => l
  | fuel + 1, [] => []
  | fuel + 1, c :: rest =>
    if parenOpen c then
      match greedyCloseIdx rest with
      | some k => replaceParenFuel fuel (rest.drop (k + 1))
      | none => c :: replaceParenFuel fuel rest
    else c :: replaceParenFuel fuel rest

/-- The global replacement `.replace(/[（(].+[)）]/g, '')`. -/
def replaceParen (l : List Char) : List Char :=
  replaceParenFuel l.length l

/-- The global replacement `.replace(/\s+/g, '')`. -/
def stripWs (l : List Char) : List Char :=
  l.filter (fun c => !isJsWs c)

/-- Case-insensitive prefix test used by the `/feat\.?/gi` and `/ft\.?/gi`
replacements (`pat` is given in lower case). -/
def matchesCI : List Char → List Char → Bool
  | [], _ => true
  | _ :: _, [] => false
  | p :: ps, c :: cs => (c.toLower == p) && matchesCI ps cs

/-- The global replacement `.replace(/feat\.?/gi, '')`. A match consumes
the four pattern characters plus an optional trailing dot; the scan
resumes after the match. A successful `matchesCI` guarantees at least
four characters, so the final catch-all is unreachable. -/
def replaceFeat : List Char → List Char
  | [] => []
  | c :: cs =>
    if matchesCI ['f', 'e', 'a', 't'] (c :: cs) then
      match cs with
      | _ :: _ :: _ :: '.' :: rs => replaceFeat rs
      | _ :: _ :: _ :: rs => replaceFeat rs
      | _ => []
    else c :: replaceFeat cs

/-- The global replacement `.replace(/ft\.?/gi, '')` (same scheme as
`replaceFeat` with the two-character pattern). -/
def replaceFt : List Char → List Char
  | [] => []
  | c :: cs =>
    if matchesCI ['f', 't'] (c :: cs) then
      match cs with
      | _ :: '.' :: rs => replaceFt rs
      | _ :: rs => replaceFt rs
      | _ => []
    else c :: replaceFt cs

/-- Character class `[一-龥a-z0-9]` kept by the final filter. -/
def isKept (c : Char) : Bool :=
  (decide (0x4e00 ≤ c.toNat) && decide (c.toNat ≤ 0x9fa5)) ||
  (decide (0x61 ≤ c.toNat) && decide (c.toNat ≤ 0x7a)) ||
  (decide (0x30 ≤ c.toNat) && decide (c.toNat ≤ 0x39))

/-- The global replacement `.replace(/[^一-龥a-z0-9]/g, '')`. -/
def keepFilter (l : List Char) : List Char :=
  l.filter isKept

/-- `normalizeString` from `services/matcher.ts`. -/
def normalizeString (str : String) : String :=
  ⟨keepFilter (replaceFt (replaceFeat (stripWs (replaceParen (str.data.map Char.toLower)))))⟩

/-- `normalizeForComparison` from `utils/format.ts` (same steps without the
`feat`/`ft` replacements). -/
def normalizeForComparison (str : String) : String :=
  ⟨keepFilter (stripWs (replaceParen (str.data.map Char.toLower)))⟩

/-! ## Levenshtein distance and similarity (`utils/format.ts`) -/

/-- One row of the `levenshteinDistance` dynamic-programming matrix:
given the character `bc` of `b`, the remaining characters of `a`, the
diagonal entry `matrix[i-1][j-1]`, the rest of the previous row starting at
`matrix[i-1][j]`, and the entry just computed to the left `matrix[i][j-1]`. -/
def levRowAux (bc : Char) : List Char → Nat → List Nat → Nat → List Nat
  | [], _, _, _ => []
  | ac :: as, diag, prest, left =>
    let up := prest.headD 0
    let v := if bc == ac then diag else Nat.min (Nat.min (diag + 1) (left + 1)) (up + 1)
    v :: levRowAux bc as up prest.tail v

/-- `levenshteinDistance` from `utils/format.ts` (row-by-row DP). -/
def levenshteinDistance (a b : String) : Nat :=
  let row0 := List.range (a.data.length + 1)
  let finalRow := (b.data.foldl (fun st bc =>
    let i := st.1 + 1
    let prev := st.2
    (i, i :: levRowAux bc a.data (prev.headD 0) prev.tail i)) (0, row0)).2
  finalRow.getLastD 0

/-- `needle` is a leading segment of `hay` (character-exact). -/
def leadMatch : List Char → List Char → Bool
  | [], _ => true
  | _ :: _, [] => false
  | a :: as, b :: bs => a == b && leadMatch as bs

/-- `needle` occurs contiguously somewhere in `hay`. -/
def occursIn (needle : List Char) : List Char → Bool
  | [] => leadMatch needle []
  | hay@(_ :: rest) => leadMatch needle hay || occursIn needle rest

/-- JavaScript `a.includes(b)`: `b` occurs as a contiguous substring of `a`. -/
def strIncludes (a b : String) : Bool :=
  occursIn b.data a.data

/-- `stringSimilarity` from `utils/format.ts`. -/
def stringSimilarity (a b : String) : ℚ :=
  let na := normalizeForComparison a
  let nb := normalizeForComparison b
  if na = nb then 1
  else if na.length = 0 ∨ nb.length = 0 then 0
  else 1 - (levenshteinDistance na nb : ℚ) / (max na.length nb.length : ℚ)

/-! ## Matching (`services/matcher.ts`) -/

/-- Result shape `{ match: boolean; confidence: number }` of
`songNamesMatch` / `artistsMatch` (field `match` renamed `isMatch`). -/
structure MatchCheck where
  isMatch : Bool
  confidence : ℚ
deriving DecidableEq, Repr

/-- `songNamesMatch` from `services/matcher.ts`. -/
def songNamesMatch (songName localName : String) : MatchCheck :=
  let normalizedSong := normalizeString songName
  let normalizedLocal := normalizeString localName
  if normalizedSong = normalizedLocal then ⟨true, 1⟩
  else
    let contains :=
      strIncludes normalizedSong normalizedLocal || strIncludes normalizedLocal normalizedSong
    let shorter :=
      if normalizedSong.length < normalizedLocal.length then normalizedSong else normalizedLocal
    let longer :=
      if normalizedSong.length ≥ normalizedLocal.length then normalizedSong else normalizedLocal
    let containFrac : ℚ := (shorter.length : ℚ) / (longer.length : ℚ)
    if contains = true ∧ containFrac > 5/10 then ⟨true, 85/100 + containFrac * (1/10)⟩
    else
      let similarity := stringSimilarity songName localName
      if similarity > 8/10 then ⟨true, similarity⟩
      else ⟨false, 0⟩

/-- The `for (const artist of songArtists)` loop body of `artistsMatch`:
returns on the first artist that matches, otherwise recurses. -/
def artistsMatchGo (normalizedLocal localArtist : String) : List Artist → MatchCheck
  | [] => ⟨false, 0⟩
  | artist :: rest =>
    let normalizedSong := normalizeString artist.name
    if normalizedSong = normalizedLocal then ⟨true, 1⟩
    else if strIncludes normalizedSong normalizedLocal ||
            strIncludes normalizedLocal normalizedSong then ⟨true, 9/10⟩
    else
      let similarity := stringSimilarity artist.name localArtist
      if similarity > 8/10 then ⟨true, similarity⟩
      else artistsMatchGo normalizedLocal localArtist rest

/-- `artistsMatch` from `services/matcher.ts`. -/
def artistsMatch (songArtists : List Artist) (localArtist : String) : MatchCheck :=
  artistsMatchGo (normalizeString localArtist) localArtist songArtists

/-- The `matchMethod` values of `matcher.ts`. -/
inductive MatchMethod
  | id
  | exact
  | fuzzy
deriving DecidableEq, Repr

/-- Return shape of `matchSong`. -/
structure MatchOne where
  matched : Bool
  track : Option LocalTrack
  method : MatchMethod
  confidence : ℚ
deriving DecidableEq, Repr

/-- The `for (const track of localTracks)` best-candidate loop of
`matchSong` (step 3), carrying `bestMatch`, `bestConfidence`, `bestMethod`. -/
def matchSongLoop (song : Song) :
    List LocalTrack → Option LocalTrack → ℚ → MatchMethod →
    Option LocalTrack × ℚ × MatchMethod
  | [], best, bestConfidence, bestMethod => (best, bestConfidence, bestMethod)
  | track :: rest, best, bestConfidence, bestMethod =>
    let nameMatch := songNamesMatch song.name track.name
    if nameMatch.isMatch = false then
      matchSongLoop song rest best bestConfidence bestMethod
    else
      let artistMatch := artistsMatch song.artists track.artist
      if artistMatch.isMatch = false then
        matchSongLoop song rest best bestConfidence bestMethod
      else
        let confidence := (nameMatch.confidence + artistMatch.confidence) / 2
        if confidence > bestConfidence then
          matchSongLoop song rest (some track) confidence
            (if confidence ≥ 95/100 then .exact else .fuzzy)
        else
          matchSongLoop song rest best bestConfidence bestMethod

/-- `matchSong` from `services/matcher.ts`. -/
def matchSong (song : Song) (localTracks : List LocalTrack)
    (syncRecords : List SyncRecord) : MatchOne :=
  let fuzzyStep : MatchOne :=
    match matchSongLoop song localTracks none 0 .fuzzy with
    | (some bestMatch, bestConfidence, bestMethod) =>
      if bestConfidence > 75/100 then ⟨true, some bestMatch, bestMethod, bestConfidence⟩
      else ⟨false, none, .fuzzy, 0⟩
    | (none, _, _) => ⟨false, none, .fuzzy, 0⟩
  let idTrackStep : MatchOne :=
    match localTracks.find? (fun t => decide (t.songId = some song.id)) with
    | some idTrack => ⟨true, some idTrack, .id, 1⟩
    | none => fuzzyStep
  match syncRecords.find? (fun r => decide (r.songId = some song.id)) with
  | some record =>
    match localTracks.find? (fun t => decide (t.filePath = record.localPath)) with
    | some track => ⟨true, some track, .id, 1⟩
    | none => idTrackStep
  | none => idTrackStep

/-- String key of a `UserQuality` (these are string literal types in TS). -/
def userQualityStr : UserQuality → String
  | .standard => "standard"
  | .high => "high"
  | .lossless => "lossless"

/-- `QUALITY_RANK` from `constants.ts` (with its `?? 0` default). -/
def qualityRank (q : String) : Nat :=
  if q = "standard" then 1
  else if q = "higher" then 2
  else if q = "high" then 3
  else if q = "exhigh" then 3
  else if q = "lossless" then 4
  else if q = "hires" then 5
  else if q = "jyeffect" then 6
  else if q = "sky" then 6
  else if q = "spatial" then 6
  else if q = "dolby" then 7
  else if q = "jymaster" then 8
  else if q = "master" then 8
  else 0

/-- Return values of `compareQuality`. -/
inductive QualityCompare
  | better
  | same
  | worse
deriving DecidableEq, Repr

/-- `compareQuality` from `services/matcher.ts`. -/
def compareQuality (localQuality : UserQuality) (onlineQuality : String) : QualityCompare :=
  let localRank := qualityRank (userQualityStr localQuality)
  let onlineRank := qualityRank onlineQuality
  if onlineRank > localRank then .better
  else if onlineRank < localRank then .worse
  else .same

/-- `getBestQuality` from `services/matcher.ts`. -/
def getBestQuality (song : Song) (preferredQuality : UserQuality) : UserQuality :=
  let available := song.availableQualities
  if available.contains (userQualityStr preferredQuality) then preferredQuality
  else if decide (preferredQuality = .lossless) &&
      (available.contains "lossless" || available.contains "hires") then .lossless
  else if decide (preferredQuality = .lossless) &&
      (available.contains "exhigh" || available.contains "high") then .high
  else if decide (preferredQuality = .high) &&
      (available.contains "exhigh" || available.contains "high") then .high
  else .standard

/-- `MatchedPair` from `services/matcher.ts`. -/
structure MatchedPair where
  song : Song
  localTrack : LocalTrack
  matchMethod : MatchMethod
  confidence : ℚ
deriving DecidableEq, Repr

/-- `UpgradablePair` from `services/matcher.ts`. -/
structure UpgradablePair where
  song : Song
  localTrack : LocalTrack
  currentQuality : UserQuality
  targetQuality : UserQuality
deriving DecidableEq, Repr

/-- `MatchResult` from `services/matcher.ts`. -/
structure MatchResult where
  matched : List MatchedPair
  missing : List Song
  upgradable : List UpgradablePair
  unavailable : List Song
deriving DecidableEq, Repr

/-- The `for (const song of songs)` loop of `matchSongsWithTracks`,
carrying the accumulated result and the (write-only) `matchedTrackPaths`
set, modelled as a list. -/
def matchSongsLoop (localTracks : List LocalTrack) (syncRecords : List SyncRecord)
    (targetQuality : UserQuality) :
    List Song → MatchResult → List String → MatchResult
  | [], result, _ => result
  | song :: rest, result, matchedTrackPaths =>
    if song.available = false then
      matchSongsLoop localTracks syncRecords targetQuality rest
        { result with unavailable := result.unavailable ++ [song] } matchedTrackPaths
    else
      let m := matchSong song localTracks syncRecords
      match m.matched, m.track with
      | true, some track =>
        let bestOnline := getBestQuality song targetQuality
        let qualityComparison := compareQuality track.quality (userQualityStr bestOnline)
        if qualityComparison = .better then
          matchSongsLoop localTracks syncRecords targetQuality rest
            { result with
                upgradable := result.upgradable ++ [⟨song, track, track.quality, bestOnline⟩] }
            (matchedTrackPaths ++ [track.filePath])
        else
          matchSongsLoop localTracks syncRecords targetQuality rest
            { result with
                matched := result.matched ++ [⟨song, track, m.method, m.confidence⟩] }
            (matchedTrackPaths ++ [track.filePath])
      | _, _ =>
        matchSongsLoop localTracks syncRecords targetQuality rest
          { result with missing := result.missing ++ [song] } matchedTrackPaths

/-- `matchSongsWithTracks` from `services/matcher.ts`. -/
def matchSongsWithTracks (songs : List Song) (localTracks : List LocalTrack)
    (syncRecords : List SyncRecord) (targetQuality : UserQuality) : MatchResult :=
  matchSongsLoop localTracks syncRecords targetQuality songs ⟨[], [], [], []⟩ []

/-! ## Quality classification (`models/local-track.ts`, `services/scanner.ts`) -/

/-- `determineQuality` from `models/local-track.ts`. `bitrate` is the
optional JS number; `some 0` is falsy like `undefined`. -/
def determineQuality (format : AudioFormat) (bitrate : Option Nat) : UserQuality :=
  if format = .flac ∨ format = .wav then .lossless
  else
    match bitrate with
    | some b => if b ≠ 0 then (if 256 ≤ b then .high else .standard) else .standard
    | none => .standard

/-- `detectQuality` from `services/scanner.ts` (returns a plain string). -/
def detectQuality (format : AudioFormat) (bitrate : Option Nat) : String :=
  if format = .flac ∨ format = .wav then "lossless"
  else
    match bitrate with
    | some b =>
      if b ≠ 0 then
        (if 256 ≤ b then "high" else if 128 ≤ b then "standard" else "standard")
      else "standard"
    | none => "standard"

/-! ## Sync database (`storage/database.ts`)

The pure core of `upsertRecord`/`upsertRecords`: the mutation applied to
`db.tracks` between `loadDatabase()` and `saveDatabase(db)`. -/

/-- `upsertRecord` from `storage/database.ts`:
`db.tracks.findIndex(t => t.songId === record.songId)`, replace there or push. -/
def upsertRecord (tracks : List SyncRecord) (record : SyncRecord) : List SyncRecord :=
  match tracks.findIdx? (fun t => decide (t.songId = record.songId)) with
  | some existingIndex => tracks.set existingIndex record
  | none => tracks ++ [record]

/-- `upsertRecords` from `storage/database.ts` (same loop body per record). -/
def upsertRecords (tracks : List SyncRecord) (records : List SyncRecord) : List SyncRecord :=
  records.foldl upsertRecord tracks

/-! ## Filename decomposition (`constants.ts` patterns, `scanner.ts` `parseFilename`)

`FILENAME_PATTERNS` are the regexes `/^(.+?)\s*-\s*(.+)$/` and
`/^(.+?)\s*[-–—]\s*(.+)$/`; they differ only in the dash character class,
so each is modelled by `trySplit` applied to its dash predicate.
`trySplit` reproduces the backtracking behaviour of the regex engine:
the lazy `(.+?)` group grows one character at a time; after it, the
greedy `\s*` run must be followed by a dash; the second `\s*` backs off
just enough to leave a non-empty `(.+)` reaching the end of the input. -/

/-- Length of the maximal leading `\s` run. -/
def countLeadWs : List Char → Nat
  | [] => 0
  | c :: cs => if isJsWs c then countLeadWs cs + 1 else 0

/-- One attempt of the `^(.+?)\s*DASH\s*(.+)$` engine with group 1
fixed to `pre`: the greedy `\s*` run of `rest` must be followed by a
dash, and the second `\s*` backs off just enough to leave a non-empty
`(.+)` reaching the end of the input. -/
def trySplitHead (isDash : Char → Bool) (pre rest : List Char) :
    Option (List Char × List Char) :=
  let w := countLeadWs rest
  match rest.drop w with
  | d :: r =>
    if isDash d = true ∧ r ≠ [] then
      let w2 := countLeadWs r
      let g2 := r.drop (Nat.min w2 (r.length - 1))
      if g2.any isLineTerm then none else some (pre, g2)
    else none
  | [] => none

/-- Matching engine for `^(.+?)\s*DASH\s*(.+)$`: the lazy `(.+?)` group
`pre` grows one character at a time until `trySplitHead` succeeds; a
line terminator cannot be absorbed into group 1. -/
def trySplit (isDash : Char → Bool) : List Char → List Char → Option (List Char × List Char)
  | _, [] => none
  | pre, c :: cs =>
    (trySplitHead isDash pre (c :: cs)).orElse
      (fun _ => if isLineTerm c then none else trySplit isDash (pre ++ [c]) cs)

/-- Start the match: group 1 must begin with a `.`-matchable character. -/
def runPat (isDash : Char → Bool) (fileName : List Char) : Option (List Char × List Char) :=
  match fileName with
  | [] => none
  | c :: cs => if isLineTerm c then none else trySplit isDash [c] cs

/-- Dash class of the first `FILENAME_PATTERNS` entry: ASCII `-` only. -/
def dashPat1 (c : Char) : Bool :=
  c == '-'

/-- Dash class `[-–—]` of the second `FILENAME_PATTERNS` entry. -/
def dashPat2 (c : Char) : Bool :=
  c == '-' || c == '–' || c == '—'

/-- JavaScript `String.prototype.trim`. -/
def jsTrim (s : List Char) : List Char :=
  ((s.dropWhile isJsWs).reverse.dropWhile isJsWs).reverse

/-- Index of the last occurrence of `ch`. -/
def lastIdxOf (ch : Char) (l : List Char) : Option Nat :=
  (l.foldl (fun (st : Nat × Option Nat) c =>
    (st.1 + 1, if c = ch then some st.1 else st.2)) (0, none)).2

/-- Final path segment (after the last `/`), as in node `path.basename`. -/
def lastSegment (p : List Char) : List Char :=
  match lastIdxOf '/' p with
  | none => p
  | some i => p.drop (i + 1)

/-- `l` ends with `suffix` (character-exact). -/
def endsWithChars (l suffix : List Char) : Bool :=
  leadMatch suffix.reverse l.reverse

/-- node `path.basename(p, suffix)`. -/
def basenameSuffix (p suffix : List Char) : List Char :=
  let seg := lastSegment p
  if suffix ≠ [] ∧ seg ≠ suffix ∧ endsWithChars seg suffix = true then
    seg.take (seg.length - suffix.length)
  else seg

/-- node `path.extname(p)`. -/
def extnameOf (p : List Char) : List Char :=
  let seg := lastSegment p
  match lastIdxOf '.' seg with
  | some i => if i = 0 then [] else seg.drop i
  | none => []

/-- node `path.dirname(p)`. -/
def dirnameStr (p : String) : String :=
  match lastIdxOf '/' p.data with
  | none => "."
  | some 0 => "/"
  | some i => ⟨p.data.take i⟩

/-- node `path.join(a, b)` (for the normalized paths used here). -/
def joinPath (a b : String) : String :=
  if a = "" then b else ⟨a.data ++ '/' :: b.data⟩

/-- Return shape of `parseFilename`. -/
structure ParsedName where
  name : String
  artist : String
deriving DecidableEq, Repr

/-- `parseFilename` from `services/scanner.ts`: try the two
`FILENAME_PATTERNS` in order, else fall back to the whole file name. -/
def parseFilename (filePath : String) : ParsedName :=
  let fileName := basenameSuffix filePath.data (extnameOf filePath.data)
  match runPat dashPat1 fileName with
  | some (g1, g2) => ⟨⟨jsTrim g1⟩, ⟨jsTrim g2⟩⟩
  | none =>
    match runPat dashPat2 fileName with
    | some (g1, g2) => ⟨⟨jsTrim g1⟩, ⟨jsTrim g2⟩⟩
    | none => ⟨⟨jsTrim fileName⟩, "Unknown Artist"⟩

/-- Spec-side variant of `parseFilename` that drops the second pattern
(the "single reachable rule" the spec proposes). -/
def parseFilenameSingle (filePath : String) : ParsedName :=
  let fileName := basenameSuffix filePath.data (extnameOf filePath.data)
  match runPat dashPat1 fileName with
  | some (g1, g2) => ⟨⟨jsTrim g1⟩, ⟨jsTrim g2⟩⟩
  | none => ⟨⟨jsTrim fileName⟩, "Unknown Artist"⟩

/-! ## NCM container codec (`services/ncm.ts`)

Byte buffers are `List Nat` with values reduced mod 256. The two external
primitives used by the codec — node's AES-128-ECB decryption and the
base64+AES+JSON tail of metadata decoding — are not part of this
repository and enter as an explicit environment (`NcmExternal`); `none`
models a thrown error. The filesystem is a map from paths to contents. -/

/-- `NCM_MAGIC_HEADER` from `constants.ts` (`Buffer.from('CTENFDAM')`). -/
def NCM_MAGIC_HEADER : List Nat :=
  [0x43, 0x54, 0x45, 0x4e, 0x46, 0x44, 0x41, 0x4d]

/-- `NCM_CORE_KEY` from `services/ncm.ts`. -/
def NCM_CORE_KEY : List Nat :=
  [0x68, 0x7a, 0x48, 0x52, 0x41, 0x6d, 0x73, 0x6f,
   0x35, 0x6b, 0x49, 0x6e, 0x62, 0x61, 0x78, 0x57]

/-- `NCM_META_KEY` from `services/ncm.ts`. -/
def NCM_META_KEY : List Nat :=
  [0x23, 0x31, 0x34, 0x6c, 0x6a, 0x6b, 0x5f, 0x21,
   0x5c, 0x5d, 0x26, 0x30, 0x55, 0x3c, 0x27, 0x28]

/-- One iteration of the KSA loop of `buildRc4Sbox`:
`j = (j + sbox[i] + key[i % key.length]) & 0xff` then swap `sbox[i]`,`sbox[j]`. -/
def ksaStep (key : List Nat) (st : List Nat × Nat) (i : Nat) : List Nat × Nat :=
  let sbox := st.1
  let j := (st.2 + sbox.getD i 0 + key.getD (i % key.length) 0) % 256
  let a := sbox.getD i 0
  let b := sbox.getD j 0
  ((sbox.set i b).set j a, j)

/-- `buildRc4Sbox` from `services/ncm.ts`: identity table `0..255`, then
256 swap-based KSA iterations. -/
def buildRc4Sbox (key : List Nat) : List Nat :=
  ((List.range 256).foldl (ksaStep key) (List.range 256, 0)).1

/-- The per-byte loop of `rc4Decrypt`, with `i` the running byte index:
`j = (i+1) & 0xff`, `k = (sbox[j] + sbox[(sbox[j]+j) & 0xff]) & 0xff`,
output byte `= data[i] ^ sbox[k]`. -/
def rc4DecryptAux (sbox : List Nat) : Nat → List Nat → List Nat
  | _, [] => []
  | i, b :: rest =>
    let j := (i + 1) % 256
    let k := (sbox.getD j 0 + sbox.getD ((sbox.getD j 0 + j) % 256) 0) % 256
    (b ^^^ sbox.getD k 0) :: rc4DecryptAux sbox (i + 1) rest

/-- `rc4Decrypt` from `services/ncm.ts`. -/
def rc4Decrypt (data : List Nat) (sbox : List Nat) : List Nat :=
  rc4DecryptAux sbox 0 data

/-- `NcmMetadata` from `services/ncm.ts`. -/
structure NcmMetadata where
  musicId : Int
  musicName : String
  artist : List (String × Int)
  album : String
  albumId : Int
  albumPic : Option String
  bitrate : Nat
  duration : Nat
  format : String
deriving DecidableEq, Repr

/-- External primitives used by the codec but implemented outside this
repository: node `crypto` AES-128-ECB decryption (`aesEcbDecrypt`), and
the base64-decode → AES → JSON-parse tail of `decryptMetadata`. -/
structure NcmExternal where
  aesDecrypt : List Nat → List Nat → Option (List Nat)
  parseMeta : List Nat → Option NcmMetadata

/-- node `buffer.readUInt32LE(off)`: throws (here `none`) when fewer than
four bytes remain. -/
def readUInt32LE (data : List Nat) (off : Nat) : Option Nat :=
  if off + 4 ≤ data.length then
    some (data.getD off 0 + data.getD (off + 1) 0 * 256 +
      data.getD (off + 2) 0 * 65536 + data.getD (off + 3) 0 * 16777216)
  else none

/-- node `buffer.subarray(start, stop)` (clamping). -/
def subarrayOf (data : List Nat) (start stop : Nat) : List Nat :=
  (data.take stop).drop start

/-- Component split produced by `parseNcmFile`. -/
structure NcmParsed where
  keyData : List Nat
  metaData : Option (List Nat)
  imageData : Option (List Nat)
  audioData : List Nat
deriving DecidableEq, Repr

/-- `parseNcmFile` from `services/ncm.ts`, applied to the file bytes:
magic check, then length-prefixed key/meta blocks, 9 skipped bytes
(CRC + gap), length-prefixed image block, remainder audio. -/
def parseNcmFile (data : List Nat) : Except String NcmParsed :=
  if subarrayOf data 0 8 ≠ NCM_MAGIC_HEADER then .error "不是有效的 NCM 文件"
  else
    match readUInt32LE data 10 with
    | none => .error "解析文件失败"
    | some keyLength =>
      let keyData := subarrayOf data 14 (14 + keyLength)
      let off1 := 14 + keyLength
      match readUInt32LE data off1 with
      | none => .error "解析文件失败"
      | some metaLength =>
        let metaData :=
          if metaLength > 0 then some (subarrayOf data (off1 + 4) (off1 + 4 + metaLength))
          else none
        let off2 := off1 + 4 + metaLength + 9
        match readUInt32LE data off2 with
        | none => .error "解析文件失败"
        | some imageLength =>
          let imageData :=
            if imageLength > 0 then some (subarrayOf data (off2 + 4) (off2 + 4 + imageLength))
            else none
          let audioData := data.drop (off2 + 4 + imageLength)
          .ok ⟨keyData, metaData, imageData, audioData⟩

/-- `decryptKey` from `services/ncm.ts`: XOR `0x64`, AES-decrypt with the
core key, strip the 17-byte `neteasecloudmusic` lead. -/
def decryptKey (env : NcmExternal) (keyData : List Nat) : Option (List Nat) :=
  let xored := keyData.map (fun b => b ^^^ 0x64)
  match env.aesDecrypt xored NCM_CORE_KEY with
  | some decrypted => some (decrypted.drop 17)
  | none => none

/-- `decryptMetadata` from `services/ncm.ts`: XOR `0x63`, strip the
22-byte lead, hand the rest to the external base64/AES/JSON tail. -/
def decryptMetadata (env : NcmExternal) (metaData : List Nat) : Option NcmMetadata :=
  let xored := metaData.map (fun b => b ^^^ 0x63)
  env.parseMeta (xored.drop 22)

/-- `decryptAudio` from `services/ncm.ts`. -/
def decryptAudio (audioData rc4Key : List Nat) : List Nat :=
  rc4Decrypt audioData (buildRc4Sbox rc4Key)

/-- `detectFormat` from `services/ncm.ts` (magic-byte sniffing; a missing
byte reads as `0`, which fails every compared pattern just as JS
`undefined` does). -/
def detectFormat (data : List Nat) : String :=
  if data.getD 0 0 = 0x66 ∧ data.getD 1 0 = 0x4c ∧
     data.getD 2 0 = 0x61 ∧ data.getD 3 0 = 0x43 then "flac"
  else if (data.getD 0 0 = 0xff ∧ (data.getD 1 0 &&& 0xe0) = 0xe0) ∨
      (data.getD 0 0 = 0x49 ∧ data.getD 1 0 = 0x44 ∧ data.getD 2 0 = 0x33) then "mp3"
  else "mp3"

/-- Options of `decryptNcmFile`. -/
structure NcmOptions where
  outputDir : Option String
  overwrite : Bool
deriving DecidableEq, Repr

/-- `NcmDecryptResult` from `services/ncm.ts`. -/
structure NcmDecryptResult where
  success : Bool
  outputPath : Option String
  metadata : Option NcmMetadata
  error : Option String
deriving DecidableEq, Repr

/-- `decryptNcmFile` from `services/ncm.ts`, over an explicit filesystem
state (path ↦ contents); returns the updated filesystem and the result. -/
def decryptNcmFile (env : NcmExternal) (fs : String → Option (List Nat))
    (inputPath : String) (options : NcmOptions) :
    (String → Option (List Nat)) × NcmDecryptResult :=
  match fs inputPath with
  | none => (fs, ⟨false, none, none, some "文件不存在"⟩)
  | some data =>
    match parseNcmFile data with
    | .error e => (fs, ⟨false, none, none, some e⟩)
    | .ok parsed =>
      match decryptKey env parsed.keyData with
      | none => (fs, ⟨false, none, none, some "无法解密密钥"⟩)
      | some rc4Key =>
        let metadata : Option NcmMetadata :=
          match parsed.metaData with
          | some md => decryptMetadata env md
          | none => none
        let audioData := decryptAudio parsed.audioData rc4Key
        let format : String :=
          match metadata with
          | some m => if m.format = "" then detectFormat audioData else m.format
          | none => detectFormat audioData
        let inputDir := dirnameStr inputPath
        let inputName := basenameSuffix inputPath.data ".ncm".data
        let outputName : String := ⟨inputName ++ '.' :: format.data⟩
        let outputBase : String :=
          match options.outputDir with
          | some d => if d = "" then inputDir else d
          | none => inputDir
        let outputPath := joinPath outputBase outputName
        if (fs outputPath).isSome = true ∧ options.overwrite = false then
          (fs, ⟨true, some outputPath, metadata, none⟩)
        else
          (fun q => if q = outputPath then some audioData else fs q,
           ⟨true, some outputPath, metadata, none⟩)

/-- Spec-side projection of the `decryptNcmFile` pipeline: the output
path and decoded metadata the call computes just before its
`pathExists(outputPath) && !overwrite` check (`none` when any earlier
step fails). Mirrors the same steps of the source. -/
def ncmPlanned (env : NcmExternal) (fs : String → Option (List Nat))
    (inputPath : String) (options : NcmOptions) :
    Option (String × Option NcmMetadata) :=
  match fs inputPath with
  | none => none
  | some data =>
    match parseNcmFile data with
    | .error _ => none
    | .ok parsed =>
      match decryptKey env parsed.keyData with
      | none => none
      | some rc4Key =>
        let metadata : Option NcmMetadata :=
          match parsed.metaData with
          | some md => decryptMetadata env md
          | none => none
        let audioData := decryptAudio parsed.audioData rc4Key
        let format : String :=
          match metadata with
          | some m => if m.format = "" then detectFormat audioData else m.format
          | none => detectFormat audioData
        let inputDir := dirnameStr inputPath
        let inputName := basenameSuffix inputPath.data ".ncm".data
        let outputName : String := ⟨inputName ++ '.' :: format.data⟩
        let outputBase : String :=
          match options.outputDir with
          | some d => if d = "" then inputDir else d
          | none => inputDir
        some (joinPath outputBase outputName, metadata)

/-! ## Spec-side definitions used by theorem statements -/

/-- Spec side: the overall confidence of a fuzzy candidate, the
arithmetic mean of the name confidence and the artist confidence. -/
def fuzzyConfidence (song : Song) (t : LocalTrack) : ℚ :=
  ((songNamesMatch song.name t.name).confidence +
    (artistsMatch song.artists t.artist).confidence) / 2

/-- Spec side: the per-remote-artist-candidate confidence rule stated by
the spec (normalized equality 1.0, containment 0.9, otherwise the
edit-distance similarity when it exceeds 0.8, else no match = 0). -/
def artistCandidateConf (localArtist : String) (artist : Artist) : ℚ :=
  let normalizedSong := normalizeString artist.name
  let normalizedLocal := normalizeString localArtist
  if normalizedSong = normalizedLocal then 1
  else if strIncludes normalizedSong normalizedLocal ||
      strIncludes normalizedLocal normalizedSong then 9/10
  else if stringSimilarity artist.name localArtist > 8/10 then
    stringSimilarity artist.name localArtist
  else 0

/-- Spec side: how many times song `s` appears across the three buckets
`matched`/`upgradable`/`missing` of a `MatchResult`. -/
def presentCount (r : MatchResult) (s : Song) : Nat :=
  (r.matched.map MatchedPair.song).count s +
    (r.upgradable.map UpgradablePair.song).count s + r.missing.count s

/-- Concrete sync record at path `/music/a.mp3` with no remote id. -/
def recA : SyncRecord :=
  ⟨"/music/a.mp3", none, "a", "x", none, .standard, "t0", .pending, "t0", 1, .mp3, none, .filename⟩

/-- Concrete sync record at path `/music/b.mp3` with no remote id. -/
def recB : SyncRecord :=
  ⟨"/music/b.mp3", none, "b", "y", none, .standard, "t1", .pending, "t1", 2, .mp3, none, .filename⟩

/-- Concrete local track used by the matcher theorems. -/
def trackX : LocalTrack :=
  ⟨"/m/x.mp3", "x", "y", none, .lossless, .flac, 1, none, none, .filename⟩

/-- Concrete available remote song matching `trackX` by name/artist. -/
def songX1 : Song :=
  ⟨1, "x", [⟨10, "y"⟩], ⟨5, "al", none⟩, 0, [], true, false⟩

/-- A second, distinct available remote song matching `trackX`. -/
def songX2 : Song :=
  ⟨2, "x", [⟨10, "y"⟩], ⟨5, "al", none⟩, 0, [], true, false⟩

/-- Spec side: the modified keystream byte the spec states for absolute
audio byte index `i`: `j = (i+1) mod 256`,
`k = (table[j] + table[(table[j]+j) mod 256]) mod 256`, byte `table[k]`. -/
def keystreamByte (table : List Nat) (i : Nat) : Nat :=
  let j := (i + 1) % 256
  let k := (table.getD j 0 + table.getD ((table.getD j 0 + j) % 256) 0) % 256
  table.getD k 0

/-- Concrete NCM container bytes: the magic header, two gap bytes, a
one-byte key block, a one-byte metadata block, the nine skipped bytes
(CRC + gap), an empty image block and a single audio byte. -/
def ncmBytesX : List Nat :=
  [0x43, 0x54, 0x45, 0x4e, 0x46, 0x44, 0x41, 0x4d] ++ [0, 0] ++
    [1, 0, 0, 0] ++ [0] ++ [1, 0, 0, 0] ++ [0] ++
    [0, 0, 0, 0, 0, 0, 0, 0, 0] ++ [0, 0, 0, 0] ++ [0x11]

/-- Concrete decoded metadata (format `mp3`) used by the codec theorems. -/
def ncmMetaX : NcmMetadata :=
  ⟨0, "", [], "", 0, none, 0, 0, "mp3"⟩

/-- Concrete external-crypto environment used by the codec theorems: AES
decryption yields 18 zero bytes (17-byte lead plus a one-byte RC4 key),
metadata parsing yields `ncmMetaX`. -/
def ncmEnvX : NcmExternal :=
  ⟨fun _ _ => some (List.replicate 18 0), fun _ => some ncmMetaX⟩

/-- Concrete filesystem: the container at `/d/f.ncm` and an existing
decoded file at `/d/f.mp3`. -/
def ncmFsX : String → Option (List Nat) :=
  fun q =>
    if q = "/d/f.ncm" then some ncmBytesX
    else if q = "/d/f.mp3" then some [1, 2]
    else none

/-! ## C4 — quality classification -/

/-- C4: quality classification is a pure function of format and bitrate:
`flac`/`wav` give `lossless`, otherwise a bitrate of at least 256 kbps
gives `high`, otherwise (including an absent bitrate) `standard`; and
`determineQuality` (model) and `detectQuality` (scanner) agree on every
input. -/
theorem quality_rule_agree (format : AudioFormat) (bitrate : Option Nat) :
    determineQuality format bitrate =
      (if format = .flac ∨ format = .wav then .lossless
       else if 256 ≤ bitrate.getD 0 then .high else .standard)
    ∧ detectQuality format bitrate = userQualityStr (determineQuality format bitrate) := by
  constructor <;> cases format <;> rcases bitrate with _ | b <;>
      simp only [determineQuality, detectQuality, userQualityStr, Option.getD] <;>
      split_ifs <;> simp_all <;> omega

/-! ## C2 — upsert key (code bug evidence)

The repository documents `localPath` as the primary key
(`models/config.ts`: "Local file path (primary key)";
`specs/002-optimize-song-scan/contracts/database.md`: `upsertRecord`
uses `localPath` as the key), but `storage/database.ts` looks records up
by `songId`. Upserting a second record with no remote id therefore
replaces an unrelated record at a different path instead of appending. -/

/-- C2 (code-bug evidence): `recA` and `recB` live at different paths and
both lack a remote id, yet `upsertRecord` (and `upsertRecords`) replaces
`recA` with `recB` because it keys on `songId` (`none = none`) rather
than on the local path. -/
theorem upsertRecord_keyed_on_songId :
    recA.localPath ≠ recB.localPath ∧ recA.songId = none ∧ recB.songId = none ∧
    upsertRecord [recA] recB = [recB] ∧
    upsertRecords [recA] [recB] = [recB] := by
  refine ⟨by decide, rfl, rfl, rfl, rfl⟩

/-! ## C6 — normalization idempotence -/

/-- C6 (counterexample): `normalizeString` is not idempotent. The final
keep-filter of the first pass can manufacture a fresh `"ft"` (here from
`"f-t"`), which the `/ft\.?/gi` replacement of a second pass deletes. -/
theorem normalizeString_not_idempotent :
    normalizeString (normalizeString "f-t") ≠ normalizeString "f-t" := by
  decide

/-- Characters kept by the final filter are lower-case-stable, not
whitespace and not open parentheses. -/
lemma kept_char_facts (c : Char) (h : isKept c = true) :
    c.toLower = c ∧ isJsWs c = false ∧ parenOpen c = false := by
  have hn : (0x4e00 ≤ c.toNat ∧ c.toNat ≤ 0x9fa5) ∨ (0x61 ≤ c.toNat ∧ c.toNat ≤ 0x7a) ∨
      (0x30 ≤ c.toNat ∧ c.toNat ≤ 0x39) := by
    simpa [isKept, Bool.or_eq_true, Bool.and_eq_true, decide_eq_true_eq, or_assoc] using h
  refine ⟨?_, ?_, ?_⟩
  · simp only [Char.toLower]
    rw [if_neg (by omega)]
  · simp only [isJsWs, Bool.or_eq_false_iff, Bool.and_eq_false_iff,
      decide_eq_false_iff_not, decide_eq_true_eq]
    omega
  · simp only [parenOpen, Bool.or_eq_false_iff, decide_eq_false_iff_not]
    omega

/-- Mapping `Char.toLower` over lower-case-stable characters is the identity. -/
lemma map_toLower_id : ∀ (l : List Char), (∀ c ∈ l, c.toLower = c) →
    l.map Char.toLower = l := by
  intro l h
  induction l with
  | nil => rfl
  | cons c cs ih =>
    simp only [List.map_cons, h c (List.mem_cons_self c cs)]
    rw [ih (fun x hx => h x (List.mem_cons_of_mem c hx))]

/-- `replaceParenFuel` is the identity when no open parenthesis occurs. -/
lemma replaceParenFuel_id : ∀ (fuel : Nat) (l : List Char),
    (∀ c ∈ l, parenOpen c = false) → replaceParenFuel fuel l = l := by
  intro fuel
  induction fuel with
  | zero => intro l _; rfl
  | succ f ih =>
    intro l h
    cases l with
    | nil => rfl
    | cons c rest =>
      rw [replaceParenFuel, if_neg (by simp [h c (List.mem_cons_self c rest)]),
        ih rest (fun x hx => h x (List.mem_cons_of_mem c hx))]

/-- `stripWs` is the identity when no whitespace occurs. -/
lemma stripWs_id (l : List Char) (h : ∀ c ∈ l, isJsWs c = false) : stripWs l = l := by
  unfold stripWs
  exact List.filter_eq_self.mpr (fun a ha => by simp [h a ha])

/-- On lower-case-stable input the case-insensitive prefix test agrees
with the exact one (the pattern is given in lower case). -/
lemma matchesCI_eq_leadMatch (pat : List Char) : ∀ (l : List Char),
    (∀ c ∈ l, c.toLower = c) → matchesCI pat l = leadMatch pat l := by
  induction pat with
  | nil => intro l _; cases l <;> rfl
  | cons p ps ih =>
    intro l h
    cases l with
    | nil => rfl
    | cons c cs =>
      rw [matchesCI, leadMatch, h c (List.mem_cons_self c cs),
        ih cs (fun x hx => h x (List.mem_cons_of_mem c hx))]
      congr 1
      by_cases hcp : c = p
      · subst hcp; rfl
      · rw [beq_eq_false_iff_ne.mpr hcp, beq_eq_false_iff_ne.mpr (Ne.symm hcp)]

/-- `replaceFeat` keeps the head character when the pattern does not
match at the current position. -/
lemma replaceFeat_cons_neg (c : Char) (cs : List Char)
    (h : matchesCI ['f', 'e', 'a', 't'] (c :: cs) = false) :
    replaceFeat (c :: cs) = c :: replaceFeat cs := by
  rw [replaceFeat.eq_def]
  simp [h]

/-- `replaceFt` keeps the head character when the pattern does not
match at the current position. -/
lemma replaceFt_cons_neg (c : Char) (cs : List Char)
    (h : matchesCI ['f', 't'] (c :: cs) = false) :
    replaceFt (c :: cs) = c :: replaceFt cs := by
  rw [replaceFt.eq_def]
  simp [h]

/-- `replaceFeat` is the identity on lower-case-stable input with no
occurrence of `feat`. -/
lemma replaceFeat_id : ∀ (l : List Char), (∀ c ∈ l, c.toLower = c) →
    occursIn ['f', 'e', 'a', 't'] l = false → replaceFeat l = l := by
  intro l
  induction l with
  | nil => intro _ _; rfl
  | cons c cs ih =>
    intro hlow hocc
    have hsplit : leadMatch ['f', 'e', 'a', 't'] (c :: cs) = false ∧
        occursIn ['f', 'e', 'a', 't'] cs = false := by
      have he : occursIn ['f', 'e', 'a', 't'] (c :: cs) =
          (leadMatch ['f', 'e', 'a', 't'] (c :: cs) || occursIn ['f', 'e', 'a', 't'] cs) := rfl
      rw [he] at hocc
      exact Bool.or_eq_false_iff.mp hocc
    rw [replaceFeat_cons_neg c cs (by rw [matchesCI_eq_leadMatch _ _ hlow, hsplit.1]),
      ih (fun x hx => hlow x (List.mem_cons_of_mem c hx)) hsplit.2]

/-- `replaceFt` is the identity on lower-case-stable input with no
occurrence of `ft`. -/
lemma replaceFt_id : ∀ (l : List Char), (∀ c ∈ l, c.toLower = c) →
    occursIn ['f', 't'] l = false → replaceFt l = l := by
  intro l
  induction l with
  | nil => intro _ _; rfl
  | cons c cs ih =>
    intro hlow hocc
    have hsplit : leadMatch ['f', 't'] (c :: cs) = false ∧
        occursIn ['f', 't'] cs = false := by
      have he : occursIn ['f', 't'] (c :: cs) =
          (leadMatch ['f', 't'] (c :: cs) || occursIn ['f', 't'] cs) := rfl
      rw [he] at hocc
      exact Bool.or_eq_false_iff.mp hocc
    rw [replaceFt_cons_neg c cs (by rw [matchesCI_eq_leadMatch _ _ hlow, hsplit.1]),
      ih (fun x hx => hlow x (List.mem_cons_of_mem c hx)) hsplit.2]

/-- C6 (amended): `normalizeString` is idempotent on every string whose
normalized form contains no occurrence of `feat` and none of `ft`: on
such strings a second application is the identity, every step acting
trivially on the already-filtered characters. (In general idempotence
fails, see the counterexample: the final keep-filter can create a fresh
`ft`/`feat` that a second pass would strip.) -/
theorem normalizeString_idempotent_of_no_feat_ft (s : String)
    (h1 : occursIn "feat".data (normalizeString s).data = false)
    (h2 : occursIn "ft".data (normalizeString s).data = false) :
    normalizeString (normalizeString s) = normalizeString s := by
  have hkept : ∀ c ∈ (normalizeString s).data, isKept c = true := by
    intro c hc
    have hc' : c ∈ List.filter isKept
        (replaceFt (replaceFeat (stripWs (replaceParen (s.data.map Char.toLower))))) := hc
    exact (List.mem_filter.mp hc').2
  have hlow : ∀ c ∈ (normalizeString s).data, c.toLower = c :=
    fun c hc => (kept_char_facts c (hkept c hc)).1
  have hws : ∀ c ∈ (normalizeString s).data, isJsWs c = false :=
    fun c hc => (kept_char_facts c (hkept c hc)).2.1
  have hpar : ∀ c ∈ (normalizeString s).data, parenOpen c = false :=
    fun c hc => (kept_char_facts c (hkept c hc)).2.2
  have e1 : (normalizeString s).data.map Char.toLower = (normalizeString s).data :=
    map_toLower_id _ hlow
  have e2 : replaceParen (normalizeString s).data = (normalizeString s).data :=
    replaceParenFuel_id _ _ hpar
  have e3 : stripWs (normalizeString s).data = (normalizeString s).data :=
    stripWs_id _ hws
  have e4 : replaceFeat (normalizeString s).data = (normalizeString s).data :=
    replaceFeat_id _ hlow h1
  have e5 : replaceFt (normalizeString s).data = (normalizeString s).data :=
    replaceFt_id _ hlow h2
  have e6 : keepFilter (normalizeString s).data = (normalizeString s).data :=
    List.filter_eq_self.mpr (fun a ha => hkept a ha)
  show String.mk (keepFilter (replaceFt (replaceFeat (stripWs
    (replaceParen ((normalizeString s).data.map Char.toLower)))))) = normalizeString s
  rw [e1, e2, e3, e4, e5, e6]

/-- C6 (amended, witness): the hypotheses hold for `"abc"` and the
amended theorem applies there. -/
theorem normalizeString_idempotent_witness :
    occursIn "feat".data (normalizeString "abc").data = false ∧
    occursIn "ft".data (normalizeString "abc").data = false ∧
    normalizeString (normalizeString "abc") = normalizeString "abc" :=
  ⟨by decide, by decide,
    normalizeString_idempotent_of_no_feat_ft "abc" (by decide) (by decide)⟩

/-! ## C7 — artist confidence picks the first match, not the best -/

/-- C7 (counterexample): with remote artist candidates `["ab", "a"]` and
local artist `"a"`, `artistsMatch` returns the first candidate's
containment confidence 0.9, not the maximum per-candidate confidence
(the second candidate matches exactly with 1.0). -/
theorem artistsMatch_not_best :
    (artistsMatch [⟨1, "ab"⟩, ⟨2, "a"⟩] "a").confidence = 9/10 ∧
    artistCandidateConf "a" ⟨2, "a"⟩ = 1 ∧
    ¬(1 : ℚ) ≤ (artistsMatch [⟨1, "ab"⟩, ⟨2, "a"⟩] "a").confidence := by
  have hne : ¬ (normalizeString "ab" = normalizeString "a") := by decide
  have hct : (strIncludes (normalizeString "ab") (normalizeString "a") ||
      strIncludes (normalizeString "a") (normalizeString "ab")) = true := by decide
  have h1 : artistsMatch [⟨1, "ab"⟩, ⟨2, "a"⟩] "a" = ⟨true, 9/10⟩ := by
    simp only [artistsMatch, artistsMatchGo, hne, hct]
    norm_num
  have h2 : artistCandidateConf "a" ⟨2, "a"⟩ = 1 := by
    unfold artistCandidateConf
    rw [if_pos rfl]
  exact ⟨by rw [h1], h2, by rw [h1]; norm_num⟩

/-- C7 (amended): artist confidence is computed per remote-artist
candidate by the equality/containment/similarity rule, and the result is
that of the *first* candidate in list order with non-zero confidence
(not the maximum). -/
theorem artistsMatch_first_match (songArtists : List Artist) (localArtist : String) :
    artistsMatch songArtists localArtist =
      match songArtists.find? (fun a => decide (artistCandidateConf localArtist a ≠ 0)) with
      | some a => ⟨true, artistCandidateConf localArtist a⟩
      | none => ⟨false, 0⟩ := by
  unfold artistsMatch
  induction songArtists with
  | nil => rfl
  | cons a rest ih =>
    by_cases h1 : normalizeString a.name = normalizeString localArtist
    · have hc : artistCandidateConf localArtist a = 1 := by
        unfold artistCandidateConf; rw [if_pos h1]
      have hfind : List.find? (fun x => decide (artistCandidateConf localArtist x ≠ 0))
          (a :: rest) = some a := by
        apply List.find?_cons_of_pos
        simp only [hc, ne_eq, decide_eq_true_eq]; norm_num
      rw [hfind]
      simp only [artistsMatchGo, if_pos h1, hc]
    · by_cases h2 : (strIncludes (normalizeString a.name) (normalizeString localArtist) ||
          strIncludes (normalizeString localArtist) (normalizeString a.name)) = true
      · have hc : artistCandidateConf localArtist a = 9/10 := by
          unfold artistCandidateConf; rw [if_neg h1, if_pos h2]
        have hfind : List.find? (fun x => decide (artistCandidateConf localArtist x ≠ 0))
            (a :: rest) = some a := by
          apply List.find?_cons_of_pos
          simp only [hc, ne_eq, decide_eq_true_eq]; norm_num
        rw [hfind]
        simp only [artistsMatchGo, if_neg h1, if_pos h2, hc]
      · by_cases h3 : stringSimilarity a.name localArtist > 8/10
        · have hc : artistCandidateConf localArtist a = stringSimilarity a.name localArtist := by
            unfold artistCandidateConf; rw [if_neg h1, if_neg h2, if_pos h3]
          have hfind : List.find? (fun x => decide (artistCandidateConf localArtist x ≠ 0))
              (a :: rest) = some a := by
            apply List.find?_cons_of_pos
            simp only [hc, ne_eq, decide_eq_true_eq]
            intro h0; rw [h0] at h3; norm_num at h3
          rw [hfind]
          simp only [artistsMatchGo, if_neg h1, if_neg h2, if_pos h3, hc]
        · have hc : artistCandidateConf localArtist a = 0 := by
            unfold artistCandidateConf; rw [if_neg h1, if_neg h2, if_neg h3]
          have hfind : List.find? (fun x => decide (artistCandidateConf localArtist x ≠ 0))
              (a :: rest) =
              List.find? (fun x => decide (artistCandidateConf localArtist x ≠ 0)) rest := by
            apply List.find?_cons_of_neg
            simp only [hc, ne_eq, decide_eq_true_eq, not_not]
          rw [hfind]
          simp only [artistsMatchGo, if_neg h1, if_neg h2, if_neg h3]
          exact ih

/-! ## C3 — the fuzzy step of `matchSong` -/

/-- A name comparison matches exactly when its confidence is non-zero. -/
lemma songNamesMatch_isMatch_iff (a b : String) :
    (songNamesMatch a b).isMatch = true ↔ (songNamesMatch a b).confidence ≠ 0 := by
  unfold songNamesMatch
  dsimp only
  by_cases h1 : normalizeString a = normalizeString b
  · rw [if_pos h1]
    exact ⟨fun _ => one_ne_zero, fun _ => rfl⟩
  · rw [if_neg h1]
    by_cases h2 : (strIncludes (normalizeString a) (normalizeString b) ||
        strIncludes (normalizeString b) (normalizeString a)) = true ∧
        ((if (normalizeString a).length < (normalizeString b).length
          then normalizeString a else normalizeString b).length : ℚ) /
        ((if (normalizeString a).length ≥ (normalizeString b).length
          then normalizeString a else normalizeString b).length : ℚ) > 5/10
    · rw [if_pos h2]
      have hpos : (0 : ℚ) < 85/100 +
          ((if (normalizeString a).length < (normalizeString b).length
            then normalizeString a else normalizeString b).length : ℚ) /
          ((if (normalizeString a).length ≥ (normalizeString b).length
            then normalizeString a else normalizeString b).length : ℚ) * (1/10) := by
        have := h2.2
        linarith
      exact ⟨fun _ => ne_of_gt hpos, fun _ => rfl⟩
    · rw [if_neg h2]
      by_cases h3 : stringSimilarity a b > 8/10
      · rw [if_pos h3]
        have hpos : (0 : ℚ) < stringSimilarity a b := lt_trans (by norm_num) h3
        exact ⟨fun _ => ne_of_gt hpos, fun _ => rfl⟩
      · rw [if_neg h3]
        exact ⟨fun h => Bool.noConfusion h, fun h0 => absurd rfl h0⟩

/-- An artist comparison matches exactly when its confidence is non-zero. -/
lemma artistsMatchGo_isMatch_iff (nl la : String) : ∀ (arts : List Artist),
    (artistsMatchGo nl la arts).isMatch = true ↔
      (artistsMatchGo nl la arts).confidence ≠ 0 := by
  intro arts
  induction arts with
  | nil => simp [artistsMatchGo]
  | cons a rest ih =>
    rw [artistsMatchGo]
    dsimp only
    split_ifs with h1 h2 h3
    · exact ⟨fun _ => one_ne_zero, fun _ => rfl⟩
    · exact ⟨fun _ => by norm_num, fun _ => rfl⟩
    · have hpos : (0 : ℚ) < stringSimilarity a.name la := lt_trans (by norm_num) h3
      exact ⟨fun _ => ne_of_gt hpos, fun _ => rfl⟩
    · exact ih

/-- An artist comparison matches exactly when its confidence is non-zero. -/
lemma artistsMatch_isMatch_iff (arts : List Artist) (la : String) :
    (artistsMatch arts la).isMatch = true ↔ (artistsMatch arts la).confidence ≠ 0 :=
  artistsMatchGo_isMatch_iff (normalizeString la) la arts

/-- Invariant of the best-candidate loop of `matchSong`: the final
confidence dominates the starting one and every candidate's mean
confidence; and either the state is returned unchanged, or it describes
some candidate of the list, strictly better than the start, whose
method is `exact` exactly when its confidence reaches 0.95. -/
lemma matchSongLoop_spec (song : Song) :
    ∀ (ts : List LocalTrack) (best : Option LocalTrack) (bc : ℚ) (bm : MatchMethod),
      bc ≤ (matchSongLoop song ts best bc bm).2.1
      ∧ (∀ u ∈ ts, (songNamesMatch song.name u.name).isMatch = true →
          (artistsMatch song.artists u.artist).isMatch = true →
          fuzzyConfidence song u ≤ (matchSongLoop song ts best bc bm).2.1)
      ∧ ((matchSongLoop song ts best bc bm).1 = best ∧
          (matchSongLoop song ts best bc bm).2.1 = bc ∧
          (matchSongLoop song ts best bc bm).2.2 = bm
        ∨ ∃ t ∈ ts, (songNamesMatch song.name t.name).isMatch = true ∧
            (artistsMatch song.artists t.artist).isMatch = true ∧
            (matchSongLoop song ts best bc bm).1 = some t ∧
            (matchSongLoop song ts best bc bm).2.1 = fuzzyConfidence song t ∧
            bc < (matchSongLoop song ts best bc bm).2.1 ∧
            ((matchSongLoop song ts best bc bm).2.2 = .exact ↔
              95/100 ≤ (matchSongLoop song ts best bc bm).2.1)) := by
  intro ts
  induction ts with
  | nil =>
    intro best bc bm
    refine ⟨le_refl _, ?_, Or.inl ⟨rfl, rfl, rfl⟩⟩
    intro u hu
    exact absurd hu (List.not_mem_nil u)
  | cons t rest ih =>
    intro best bc bm
    by_cases hnm : (songNamesMatch song.name t.name).isMatch = false
    · have hred : matchSongLoop song (t :: rest) best bc bm =
          matchSongLoop song rest best bc bm := by
        conv_lhs => rw [matchSongLoop.eq_def]
        dsimp only
        rw [if_pos hnm]
      rw [hred]
      obtain ⟨ih1, ih2, ih3⟩ := ih best bc bm
      refine ⟨ih1, ?_, ?_⟩
      · intro u hu hn ha
        rcases List.mem_cons.mp hu with h | h
        · subst h
          rw [hnm] at hn
          exact absurd hn (by simp)
        · exact ih2 u h hn ha
      · rcases ih3 with h | ⟨t', ht', hprops⟩
        · exact Or.inl h
        · exact Or.inr ⟨t', List.mem_cons_of_mem _ ht', hprops⟩
    · by_cases ham : (artistsMatch song.artists t.artist).isMatch = false
      · have hred : matchSongLoop song (t :: rest) best bc bm =
            matchSongLoop song rest best bc bm := by
          conv_lhs => rw [matchSongLoop.eq_def]
          dsimp only
          rw [if_neg hnm, if_pos ham]
        rw [hred]
        obtain ⟨ih1, ih2, ih3⟩ := ih best bc bm
        refine ⟨ih1, ?_, ?_⟩
        · intro u hu hn ha
          rcases List.mem_cons.mp hu with h | h
          · subst h
            rw [ham] at ha
            exact absurd ha (by simp)
          · exact ih2 u h hn ha
        · rcases ih3 with h | ⟨t', ht', hprops⟩
          · exact Or.inl h
          · exact Or.inr ⟨t', List.mem_cons_of_mem _ ht', hprops⟩
      · have hnm' : (songNamesMatch song.name t.name).isMatch = true := by
          simpa using hnm
        have ham' : (artistsMatch song.artists t.artist).isMatch = true := by
          simpa using ham
        by_cases hgt : fuzzyConfidence song t > bc
        · have hred : matchSongLoop song (t :: rest) best bc bm =
              matchSongLoop song rest (some t) (fuzzyConfidence song t)
                (if fuzzyConfidence song t ≥ 95/100 then .exact else .fuzzy) := by
            conv_lhs => rw [matchSongLoop.eq_def]
            dsimp only
            rw [if_neg hnm, if_neg ham, if_pos (show ((songNamesMatch song.name t.name).confidence +
              (artistsMatch song.artists t.artist).confidence) / 2 > bc from hgt)]
            rfl
          rw [hred]
          obtain ⟨ih1, ih2, ih3⟩ := ih (some t) (fuzzyConfidence song t)
            (if fuzzyConfidence song t ≥ 95/100 then .exact else .fuzzy)
          refine ⟨le_trans (le_of_lt hgt) ih1, ?_, ?_⟩
          · intro u hu hn ha
            rcases List.mem_cons.mp hu with h | h
            · subst h
              exact ih1
            · exact ih2 u h hn ha
          · rcases ih3 with ⟨hb, hc, hm⟩ | ⟨t', ht', hn', ha', hb', hc', hlt', hm'⟩
            · refine Or.inr ⟨t, List.mem_cons_self t rest, hnm', ham', hb, hc, ?_, ?_⟩
              · rw [hc]
                exact hgt
              · rw [hm, hc]
                by_cases hex : fuzzyConfidence song t ≥ 95/100
                · simp [hex]
                · simp [hex]
            · exact Or.inr ⟨t', List.mem_cons_of_mem _ ht', hn', ha', hb', hc',
                lt_trans hgt hlt', hm'⟩
        · have hred : matchSongLoop song (t :: rest) best bc bm =
              matchSongLoop song rest best bc bm := by
            conv_lhs => rw [matchSongLoop.eq_def]
            dsimp only
            rw [if_neg hnm, if_neg ham, if_neg (show ¬ ((songNamesMatch song.name t.name).confidence +
              (artistsMatch song.artists t.artist).confidence) / 2 > bc from hgt)]
          rw [hred]
          obtain ⟨ih1, ih2, ih3⟩ := ih best bc bm
          refine ⟨ih1, ?_, ?_⟩
          · intro u hu hn ha
            rcases List.mem_cons.mp hu with h | h
            · subst h
              exact le_trans (not_lt.mp hgt) ih1
            · exact ih2 u h hn ha
          · rcases ih3 with h | ⟨t', ht', hprops⟩
            · exact Or.inl h
            · exact Or.inr ⟨t', List.mem_cons_of_mem _ ht', hprops⟩

/-- C3: when both id-based steps fail, `matchSong` considers only local
tracks whose name confidence and artist confidence are both non-zero,
scores each as the arithmetic mean of the two, keeps the candidate with
the highest overall confidence, accepts exactly when that confidence
exceeds 0.75, and reports method `exact` exactly when the accepted
confidence is at least 0.95 (otherwise `fuzzy`); a rejection carries no
track and confidence 0. -/
theorem matchSong_fuzzy_spec (song : Song) (localTracks : List LocalTrack)
    (syncRecords : List SyncRecord)
    (h1 : ∀ r, syncRecords.find? (fun r => decide (r.songId = some song.id)) = some r →
      localTracks.find? (fun t => decide (t.filePath = r.localPath)) = none)
    (h2 : localTracks.find? (fun t => decide (t.songId = some song.id)) = none) :
    ((matchSong song localTracks syncRecords).matched = true ↔
      ∃ t ∈ localTracks, (songNamesMatch song.name t.name).confidence ≠ 0 ∧
        (artistsMatch song.artists t.artist).confidence ≠ 0 ∧
        75/100 < fuzzyConfidence song t)
    ∧ ((matchSong song localTracks syncRecords).matched = true →
        ∃ t ∈ localTracks, (matchSong song localTracks syncRecords).track = some t ∧
          (songNamesMatch song.name t.name).confidence ≠ 0 ∧
          (artistsMatch song.artists t.artist).confidence ≠ 0 ∧
          (matchSong song localTracks syncRecords).confidence = fuzzyConfidence song t ∧
          (∀ u ∈ localTracks, (songNamesMatch song.name u.name).confidence ≠ 0 →
            (artistsMatch song.artists u.artist).confidence ≠ 0 →
            fuzzyConfidence song u ≤ (matchSong song localTracks syncRecords).confidence) ∧
          ((matchSong song localTracks syncRecords).method = .exact ↔
            95/100 ≤ (matchSong song localTracks syncRecords).confidence))
    ∧ ((matchSong song localTracks syncRecords).matched = false →
        (matchSong song localTracks syncRecords).track = none ∧
        (matchSong song localTracks syncRecords).confidence = 0) := by
  have hms : matchSong song localTracks syncRecords =
      (match matchSongLoop song localTracks none 0 .fuzzy with
       | (some bestMatch, bestConfidence, bestMethod) =>
         if bestConfidence > 75/100 then ⟨true, some bestMatch, bestMethod, bestConfidence⟩
         else ⟨false, none, .fuzzy, 0⟩
       | (none, _, _) => ⟨false, none, .fuzzy, 0⟩) := by
    unfold matchSong
    dsimp only
    rw [h2]
    cases hr : syncRecords.find? (fun r => decide (r.songId = some song.id)) with
    | none => rfl
    | some r =>
      dsimp only
      rw [h1 r hr]
  rw [hms]
  obtain ⟨hP1, hP2, hP3⟩ := matchSongLoop_spec song localTracks none 0 .fuzzy
  rcases hout : matchSongLoop song localTracks none 0 .fuzzy with ⟨ob, oc, om⟩
  rw [hout] at hP1 hP2 hP3
  try dsimp only at hP1
  try dsimp only at hP2
  try dsimp only at hP3
  try dsimp only
  cases ob with
  | none =>
    have hc0 : oc = 0 := by
      rcases hP3 with ⟨_, hc, _⟩ | ⟨t', _, _, _, hb', _, _, _⟩
      · exact hc
      · exact absurd hb' (by simp)
    refine ⟨?_, ?_, ?_⟩
    · constructor
      · intro hfalse
        exact absurd hfalse (by simp)
      · rintro ⟨u, hu, hn, ha, hgt⟩
        have := hP2 u hu ((songNamesMatch_isMatch_iff _ _).mpr hn)
          ((artistsMatch_isMatch_iff _ _).mpr ha)
        rw [hc0] at this
        linarith
    · intro hfalse
      exact absurd hfalse (by simp)
    · intro _
      exact ⟨rfl, rfl⟩
  | some t =>
    rcases hP3 with ⟨hb, _, _⟩ | ⟨t', ht', hn', ha', hb', hc', _, hm'⟩
    · exact absurd hb (by simp)
    have htt : t = t' := by simpa using hb'
    subst htt
    dsimp only
    by_cases hacc : oc > 75/100
    · rw [if_pos hacc]
      refine ⟨?_, ?_, ?_⟩
      · constructor
        · intro _
          exact ⟨t, ht', (songNamesMatch_isMatch_iff _ _).mp hn',
            (artistsMatch_isMatch_iff _ _).mp ha', by rw [← hc']; exact hacc⟩
        · intro _
          rfl
      · intro _
        refine ⟨t, ht', rfl, (songNamesMatch_isMatch_iff _ _).mp hn',
          (artistsMatch_isMatch_iff _ _).mp ha', hc'.symm ▸ rfl, ?_, hm'⟩
        intro u hu hn ha
        exact hP2 u hu ((songNamesMatch_isMatch_iff _ _).mpr hn)
          ((artistsMatch_isMatch_iff _ _).mpr ha)
      · intro hfalse
        exact absurd hfalse (by simp)
    · rw [if_neg hacc]
      refine ⟨?_, ?_, ?_⟩
      · constructor
        · intro hfalse
          exact absurd hfalse (by simp)
        · rintro ⟨u, hu, hn, ha, hgt⟩
          have := hP2 u hu ((songNamesMatch_isMatch_iff _ _).mpr hn)
            ((artistsMatch_isMatch_iff _ _).mpr ha)
          exact absurd (lt_of_lt_of_le hgt this) hacc
      · intro hfalse
        exact absurd hfalse (by simp)
      · intro _
        exact ⟨rfl, rfl⟩

/-- C3 (witness): the hypotheses hold for a concrete song, one matching
track and no sync records, and the theorem applies there. -/
theorem matchSong_fuzzy_spec_witness :
    (∀ r, ([] : List SyncRecord).find? (fun r => decide (r.songId = some songX1.id)) = some r →
      [trackX].find? (fun t => decide (t.filePath = r.localPath)) = none) ∧
    ([trackX].find? (fun t => decide (t.songId = some songX1.id)) = none) ∧
    ((matchSong songX1 [trackX] []).matched = true ↔
      ∃ t ∈ [trackX], (songNamesMatch songX1.name t.name).confidence ≠ 0 ∧
        (artistsMatch songX1.artists t.artist).confidence ≠ 0 ∧
        75/100 < fuzzyConfidence songX1 t) :=
  ⟨fun r hr => Option.noConfusion hr, by decide,
    (matchSong_fuzzy_spec songX1 [trackX] []
      (fun r hr => Option.noConfusion hr) (by decide)).1⟩

/-! ## C9 — no one-to-one matching -/

/-- C9: `matchSongsWithTracks` does not enforce one-to-one matching:
two distinct available remote songs are both accepted against the same
single local track, which therefore appears in two pairs of the result. -/
theorem matchSongsWithTracks_reuses_track :
    songX1 ≠ songX2 ∧
    (matchSongsWithTracks [songX1, songX2] [trackX] [] .lossless).matched =
      [⟨songX1, trackX, .exact, 1⟩, ⟨songX2, trackX, .exact, 1⟩] := by
  have hn : songNamesMatch "x" "x" = ⟨true, 1⟩ := by
    unfold songNamesMatch; rw [if_pos rfl]
  have ha : artistsMatch [⟨10, "y"⟩] "y" = ⟨true, 1⟩ := by
    unfold artistsMatch artistsMatchGo; rw [if_pos rfl]
  have hloop : ∀ i : Int,
      matchSongLoop ⟨i, "x", [⟨10, "y"⟩], ⟨5, "al", none⟩, 0, [], true, false⟩
        [trackX] none 0 .fuzzy = (some trackX, 1, .exact) := by
    intro i
    simp [matchSongLoop, trackX, hn, ha]
    norm_num
  have hm : ∀ i : Int,
      matchSong ⟨i, "x", [⟨10, "y"⟩], ⟨5, "al", none⟩, 0, [], true, false⟩ [trackX] [] =
        ⟨true, some trackX, .exact, 1⟩ := by
    intro i
    unfold matchSong
    have hfind : List.find? (fun t => decide (t.songId = some i)) [trackX] = none := by
      simp [trackX]
    simp only [List.find?_nil, hfind, hloop i]
    norm_num
  refine ⟨by decide, ?_⟩
  show (matchSongsLoop [trackX] [] .lossless [songX1, songX2] ⟨[], [], [], []⟩ []).matched = _
  simp only [songX1, songX2, matchSongsLoop, hm 1, hm 2]
  simp [getBestQuality, compareQuality, userQualityStr, qualityRank, trackX]

/-! ## C1 — the match result partitions the input songs -/

/-- Count invariant of the `matchSongsWithTracks` loop: processing the
remaining songs adds each available song to exactly one of
matched/upgradable/missing and each unavailable song to `unavailable`
only, on top of whatever the accumulator already holds. -/
lemma matchSongsLoop_count (localTracks : List LocalTrack) (syncRecords : List SyncRecord)
    (targetQuality : UserQuality) (s : Song) :
    ∀ (songs : List Song) (acc : MatchResult) (paths : List String),
      presentCount (matchSongsLoop localTracks syncRecords targetQuality songs acc paths) s
          = presentCount acc s + (if s.available = true then songs.count s else 0)
        ∧ (matchSongsLoop localTracks syncRecords targetQuality songs acc paths).unavailable.count s
          = acc.unavailable.count s + (if s.available = true then 0 else songs.count s) := by
  intro songs
  induction songs with
  | nil =>
    intro acc paths
    simp [matchSongsLoop]
  | cons song rest ih =>
    intro acc paths
    rw [matchSongsLoop]
    by_cases hav : song.available = false
    · rw [if_pos hav]
      obtain ⟨ih1, ih2⟩ :=
        ih { acc with unavailable := acc.unavailable ++ [song] } paths
      refine ⟨?_, ?_⟩
      · rw [ih1]
        by_cases hs : song = s
        · subst hs
          simp [presentCount, List.count_cons, hav]
        · simp [presentCount, List.count_cons, hs]
      · rw [ih2]
        by_cases hs : song = s
        · subst hs
          simp [List.count_append, List.count_cons, hav]
          omega
        · have hs2 : ¬ s = song := fun h => hs h.symm
          simp [List.count_append, List.count_cons, hs, hs2]
    · rw [if_neg hav]
      have hav' : song.available = true := by
        cases h : song.available
        · exact absurd h hav
        · rfl
      dsimp only
      split
      · rename_i x y tr hm1 hm2
        by_cases hq : compareQuality tr.quality
            (userQualityStr (getBestQuality song targetQuality)) = .better
        · rw [if_pos hq]
          obtain ⟨ih1, ih2⟩ := ih
            { acc with upgradable := acc.upgradable ++
                [⟨song, tr, tr.quality, getBestQuality song targetQuality⟩] }
            (paths ++ [tr.filePath])
          refine ⟨?_, ?_⟩
          · rw [ih1]
            by_cases hs : song = s
            · subst hs
              simp [presentCount, List.count_append, List.count_cons, hav']
              omega
            · have hs2 : ¬ s = song := fun h => hs h.symm
              simp [presentCount, List.count_append, List.count_cons, hs, hs2]
          · rw [ih2]
            by_cases hs : song = s
            · subst hs
              simp [List.count_cons, hav']
            · have hs2 : ¬ s = song := fun h => hs h.symm
              simp [List.count_cons, hs, hs2]
        · rw [if_neg hq]
          obtain ⟨ih1, ih2⟩ := ih
            { acc with matched := acc.matched ++
                [⟨song, tr, (matchSong song localTracks syncRecords).method,
                  (matchSong song localTracks syncRecords).confidence⟩] }
            (paths ++ [tr.filePath])
          refine ⟨?_, ?_⟩
          · rw [ih1]
            by_cases hs : song = s
            · subst hs
              simp [presentCount, List.count_append, List.count_cons, hav']
              omega
            · have hs2 : ¬ s = song := fun h => hs h.symm
              simp [presentCount, List.count_append, List.count_cons, hs, hs2]
          · rw [ih2]
            by_cases hs : song = s
            · subst hs
              simp [List.count_cons, hav']
            · have hs2 : ¬ s = song := fun h => hs h.symm
              simp [List.count_cons, hs, hs2]
      · obtain ⟨ih1, ih2⟩ := ih { acc with missing := acc.missing ++ [song] } paths
        refine ⟨?_, ?_⟩
        · rw [ih1]
          by_cases hs : song = s
          · subst hs
            simp [presentCount, List.count_append, List.count_cons, hav']
            omega
          · have hs2 : ¬ s = song := fun h => hs h.symm
            simp [presentCount, List.count_append, List.count_cons, hs, hs2]
        · rw [ih2]
          by_cases hs : song = s
          · subst hs
            simp [List.count_cons, hav']
          · have hs2 : ¬ s = song := fun h => hs h.symm
            simp [List.count_cons, hs, hs2]

/-- C1: `matchSongsWithTracks` returns a partition of the input songs:
every song with `available = true` appears exactly as often across
matched/upgradable/missing as in the input and never in `unavailable`;
every song with `available = false` appears only in `unavailable`,
exactly as often as in the input. -/
theorem matchSongsWithTracks_partition (songs : List Song) (localTracks : List LocalTrack)
    (syncRecords : List SyncRecord) (targetQuality : UserQuality) (s : Song) :
    presentCount (matchSongsWithTracks songs localTracks syncRecords targetQuality) s
        = (if s.available = true then songs.count s else 0)
      ∧ (matchSongsWithTracks songs localTracks syncRecords targetQuality).unavailable.count s
        = (if s.available = true then 0 else songs.count s) := by
  obtain ⟨h1, h2⟩ :=
    matchSongsLoop_count localTracks syncRecords targetQuality s songs ⟨[], [], [], []⟩ []
  unfold matchSongsWithTracks
  refine ⟨?_, ?_⟩
  · rw [h1]; simp [presentCount]
  · rw [h2]; simp

/-! ## C8 — the second filename pattern is reachable -/

/-- C8 (counterexample): on `"a – b.mp3"` (en dash) the first pattern
fails (it requires an ASCII `-`) and the second pattern decides the
result, so `parseFilename` differs from the single-pattern variant. -/
theorem parseFilename_second_pattern_reached :
    parseFilename "a – b.mp3" = ⟨"a", "b"⟩ ∧
    parseFilenameSingle "a – b.mp3" = ⟨"a – b", "Unknown Artist"⟩ := by
  refine ⟨rfl, rfl⟩

/-- Unfolding of `trySplit` on a cons cell. -/
lemma trySplit_cons (isDash : Char → Bool) (pre : List Char) (c : Char) (cs : List Char) :
    trySplit isDash pre (c :: cs) =
      (trySplitHead isDash pre (c :: cs)).orElse
        (fun _ => if isLineTerm c then none else trySplit isDash (pre ++ [c]) cs) := by
  rw [trySplit.eq_def]

/-- `trySplitHead` only applies its dash predicate to characters of the
input, so agreeing predicates give equal results. -/
lemma trySplitHead_congr (p q : Char → Bool) (pre rest : List Char)
    (h : ∀ c ∈ rest, p c = q c) :
    trySplitHead p pre rest = trySplitHead q pre rest := by
  unfold trySplitHead
  dsimp only
  cases hd : rest.drop (countLeadWs rest) with
  | nil => rfl
  | cons d r =>
    have hdp : p d = q d :=
      h d (List.mem_of_mem_drop (by rw [hd]; exact List.mem_cons_self d r))
    dsimp only
    rw [hdp]

/-- `trySplit` only applies its dash predicate to characters of the
remaining input, so agreeing predicates give equal results. -/
lemma trySplit_congr (p q : Char → Bool) :
    ∀ (rest pre : List Char), (∀ c ∈ rest, p c = q c) →
      trySplit p pre rest = trySplit q pre rest := by
  intro rest
  induction rest with
  | nil => intro pre _; rfl
  | cons c cs ih =>
    intro pre h
    rw [trySplit_cons, trySplit_cons, trySplitHead_congr p q pre (c :: cs) h]
    congr 1
    funext x
    rw [ih (pre ++ [c]) (fun y hy => h y (List.mem_cons_of_mem c hy))]

/-- Every character of `basenameSuffix p suffix` is a character of `p`. -/
lemma basenameSuffix_subset (p suffix : List Char) :
    ∀ c ∈ basenameSuffix p suffix, c ∈ p := by
  have hseg : ∀ x ∈ lastSegment p, x ∈ p := by
    intro x hx
    unfold lastSegment at hx
    cases hl : lastIdxOf '/' p with
    | none => rw [hl] at hx; exact hx
    | some i => rw [hl] at hx; exact List.mem_of_mem_drop hx
  intro c hc
  have hc2 : c ∈ (if suffix ≠ [] ∧ lastSegment p ≠ suffix ∧
      endsWithChars (lastSegment p) suffix = true then
        List.take ((lastSegment p).length - suffix.length) (lastSegment p)
      else lastSegment p) := hc
  split at hc2
  · exact hseg c (List.mem_of_mem_take hc2)
  · exact hseg c hc2

/-- C8 (amended): the two `FILENAME_PATTERNS` differ only in their dash
class (the second also accepts en/em dash), so on every file path
containing no en dash and no em dash `parseFilename` coincides with the
single-pattern variant; the second pattern is reached exactly by paths
that split on an en/em dash but not on an ASCII hyphen. -/
theorem parseFilename_no_unicode_dash (filePath : String)
    (h : ∀ c ∈ filePath.data, c ≠ '–' ∧ c ≠ '—') :
    parseFilename filePath = parseFilenameSingle filePath := by
  have hAgree : ∀ c ∈ basenameSuffix filePath.data (extnameOf filePath.data),
      dashPat2 c = dashPat1 c := by
    intro c hc
    obtain ⟨h1, h2⟩ := h c (basenameSuffix_subset _ _ c hc)
    unfold dashPat1 dashPat2
    rw [beq_eq_false_iff_ne.mpr h1, beq_eq_false_iff_ne.mpr h2]
    simp
  have hrun : runPat dashPat2 (basenameSuffix filePath.data (extnameOf filePath.data)) =
      runPat dashPat1 (basenameSuffix filePath.data (extnameOf filePath.data)) := by
    unfold runPat
    cases hfn : basenameSuffix filePath.data (extnameOf filePath.data) with
    | nil => rfl
    | cons c cs =>
      show (if isLineTerm c = true then none else trySplit dashPat2 [c] cs) =
        (if isLineTerm c = true then none else trySplit dashPat1 [c] cs)
      rw [trySplit_congr dashPat2 dashPat1 cs [c]
        (fun x hx => hAgree x (by rw [hfn]; exact List.mem_cons_of_mem c hx))]
  unfold parseFilename parseFilenameSingle
  simp only [hrun]
  cases runPat dashPat1 (basenameSuffix filePath.data (extnameOf filePath.data)) with
  | none => rfl
  | some g => obtain ⟨g1, g2⟩ := g; rfl

/-- C8 (amended, witness): a path with only an ASCII hyphen satisfies
the hypothesis and the two parsers agree on it. -/
theorem parseFilename_no_unicode_dash_witness :
    (∀ c ∈ ("x - y.mp3" : String).data, c ≠ '–' ∧ c ≠ '—') ∧
    parseFilename "x - y.mp3" = parseFilenameSingle "x - y.mp3" :=
  ⟨by decide, parseFilename_no_unicode_dash "x - y.mp3" (by decide)⟩

/-! ## C5 — NCM RC4 key scheduling and keystream -/

/-- Moving the `m`-th element of a list to the front while writing `x`
at position `m` permutes `x :: xs`. -/
theorem headD_set_perm (xs : List Nat) (m : Nat) (x : Nat) (hm : m < xs.length) :
    List.Perm (xs.getD m 0 :: xs.set m x) (x :: xs) := by
  induction xs generalizing m with
  | nil => simp at hm
  | cons y ys ih =>
    cases m with
    | zero =>
      simp only [List.getD_cons_zero, List.set_cons_zero]
      exact List.Perm.swap x y ys
    | succ m =>
      have hm' : m < ys.length := by simpa using hm
      simp only [List.getD_cons_succ, List.set_cons_succ]
      exact ((List.Perm.swap y (ys.getD m 0) (ys.set m x)).trans
        ((ih m hm').cons y)).trans (List.Perm.swap x y ys)

/-- A swap realised as two `set`s (after reading both cells) permutes
the list. -/
theorem swap_list_perm (l : List Nat) (i j : Nat) (hi : i < l.length) (hj : j < l.length) :
    List.Perm ((l.set i (l.getD j 0)).set j (l.getD i 0)) l := by
  induction l generalizing i j with
  | nil => simp at hi
  | cons y ys ih =>
    cases i with
    | zero =>
      cases j with
      | zero =>
        simp only [List.getD_cons_zero, List.set_cons_zero]
        exact List.Perm.refl _
      | succ j' =>
        have hj' : j' < ys.length := by simpa using hj
        simp only [List.getD_cons_zero, List.getD_cons_succ,
          List.set_cons_zero, List.set_cons_succ]
        exact headD_set_perm ys j' y hj'
    | succ i' =>
      have hi' : i' < ys.length := by simpa using hi
      cases j with
      | zero =>
        simp only [List.getD_cons_zero, List.getD_cons_succ,
          List.set_cons_zero, List.set_cons_succ]
        exact headD_set_perm ys i' y hi'
      | succ j' =>
        have hj' : j' < ys.length := by simpa using hj
        simp only [List.getD_cons_succ, List.set_cons_succ]
        exact (ih i' j' hi' hj').cons y

/-- One KSA iteration keeps the S-box a permutation of `0..255`. -/
theorem ksaStep_perm (key : List Nat) (st : List Nat × Nat) (i : Nat)
    (hst : List.Perm st.1 (List.range 256)) (hi : i < 256) :
    List.Perm (ksaStep key st i).1 (List.range 256) := by
  have hlen : st.1.length = 256 := by
    have h := hst.length_eq
    simpa using h
  have hswap := swap_list_perm st.1 i
    ((st.2 + st.1.getD i 0 + key.getD (i % key.length) 0) % 256)
    (by omega) (Nat.mod_lt _ (by norm_num) |>.trans_eq hlen.symm)
  refine List.Perm.trans ?_ hst
  show List.Perm (ksaStep key st i).1 st.1
  unfold ksaStep
  dsimp only
  exact hswap

set_option maxRecDepth 8192 in
/-- The S-box built by `buildRc4Sbox` is a permutation of `0..255`. -/
theorem buildRc4Sbox_perm (key : List Nat) :
    List.Perm (buildRc4Sbox key) (List.range 256) := by
  unfold buildRc4Sbox
  exact List.foldlRecOn (motive := fun st => List.Perm st.1 (List.range 256))
    (List.range 256) (ksaStep key) (List.range 256, 0) (List.Perm.refl _)
    (fun st hst i hi => ksaStep_perm key st i hst (List.mem_range.mp hi))

/-- Every defaulted read from a permutation of `0..255` is below 256. -/
theorem perm_range_getD_lt (l : List Nat) (h : List.Perm l (List.range 256)) (k : Nat) :
    l.getD k 0 < 256 := by
  by_cases hk : k < l.length
  · have hmem : l.getD k 0 ∈ l := by
      rw [List.getD_eq_getElem?_getD, List.getElem?_eq_getElem hk]
      simp only [Option.getD_some]
      exact List.getElem_mem hk
    exact List.mem_range.mp (h.mem_iff.mp hmem)
  · rw [List.getD_eq_getElem?_getD, List.getElem?_eq_none (Nat.le_of_not_lt hk)]
    simp only [Option.getD_none]
    norm_num

/-- XOR of two bytes is a byte. -/
theorem natXor_lt_256 (a b : Nat) (ha : a < 256) (hb : b < 256) : a ^^^ b < 256 := by
  have e : (256 : Nat) = 2 ^ 8 := by norm_num
  rw [e] at ha hb ⊢
  have h : Nat.bitwise bne a b < 2 ^ 8 := Nat.bitwise_lt ha hb
  exact h

/-- The keystream loop preserves the byte count. -/
theorem rc4DecryptAux_length (sbox : List Nat) (n : Nat) (data : List Nat) :
    (rc4DecryptAux sbox n data).length = data.length := by
  induction data generalizing n with
  | nil => rfl
  | cons b rest ih => simp only [rc4DecryptAux, List.length_cons, ih]

/-- Pointwise description of the keystream loop started at index `n`. -/
theorem rc4DecryptAux_getD (sbox : List Nat) (n : Nat) (data : List Nat) (i : Nat)
    (hi : i < data.length) :
    (rc4DecryptAux sbox n data).getD i 0 =
      data.getD i 0 ^^^ keystreamByte sbox (n + i) := by
  induction data generalizing n i with
  | nil => simp at hi
  | cons b rest ih =>
    cases i with
    | zero =>
      simp only [rc4DecryptAux, keystreamByte, List.getD_cons_zero, Nat.add_zero]
    | succ i' =>
      have hi' : i' < rest.length := by simpa using hi
      have h := ih (n + 1) i' hi'
      have e : n + 1 + i' = n + (i' + 1) := by omega
      rw [e] at h
      simpa only [rc4DecryptAux, List.getD_cons_succ] using h

/-- The keystream loop maps byte sequences to byte sequences. -/
theorem rc4DecryptAux_mem_lt (sbox : List Nat) (hsb : ∀ k, sbox.getD k 0 < 256) :
    ∀ (n : Nat) (data : List Nat), (∀ b ∈ data, b < 256) →
      ∀ b ∈ rc4DecryptAux sbox n data, b < 256 := by
  intro n data
  induction data generalizing n with
  | nil =>
    intro _ b hb
    simp [rc4DecryptAux] at hb
  | cons x rest ih =>
    intro hd b hb
    simp only [rc4DecryptAux, List.mem_cons] at hb
    rcases hb with hb | hb
    · subst hb
      exact natXor_lt_256 x _ (hd x (List.mem_cons_self x rest)) (hsb _)
    · exact ih (n + 1) (fun c hc => hd c (List.mem_cons_of_mem x hc)) b hb

/-- C5: for every non-empty RC4 key and every audio buffer, the codec
builds a 256-entry table that is a permutation of `0..255` by the
swap-based KSA, and the keystream transform is total: the output has the
length of the input, output byte `i` is input byte `i` XOR `table[k]`
where `j = (i+1) mod 256` and
`k = (table[j] + table[(table[j]+j) mod 256]) mod 256`, and byte-valued
input yields byte-valued output (no failure path). -/
theorem rc4_keystream_spec (key data : List Nat) (hkey : key ≠ []) :
    List.Perm (buildRc4Sbox key) (List.range 256) ∧
    (rc4Decrypt data (buildRc4Sbox key)).length = data.length ∧
    (∀ i, i < data.length →
      (rc4Decrypt data (buildRc4Sbox key)).getD i 0 =
        data.getD i 0 ^^^ keystreamByte (buildRc4Sbox key) i) ∧
    ((∀ b ∈ data, b < 256) →
      ∀ b ∈ rc4Decrypt data (buildRc4Sbox key), b < 256) := by
  have hperm := buildRc4Sbox_perm key
  refine ⟨hperm, rc4DecryptAux_length (buildRc4Sbox key) 0 data, ?_, ?_⟩
  · intro i hi
    have h := rc4DecryptAux_getD (buildRc4Sbox key) 0 data i hi
    simpa only [rc4Decrypt, Nat.zero_add] using h
  · intro hd
    exact rc4DecryptAux_mem_lt (buildRc4Sbox key)
      (fun k => perm_range_getD_lt _ hperm k) 0 data hd

/-- C5 (witness): the keystream spec instantiated at the one-byte key
`[1]` and the one-byte buffer `[0]`, every hypothesis discharged. -/
theorem rc4_keystream_spec_witness :
    List.Perm (buildRc4Sbox [1]) (List.range 256) ∧
    (rc4Decrypt [0] (buildRc4Sbox [1])).getD 0 0 =
      ([0] : List Nat).getD 0 0 ^^^ keystreamByte (buildRc4Sbox [1]) 0 ∧
    ∀ b ∈ rc4Decrypt [0] (buildRc4Sbox [1]), b < 256 :=
  ⟨(rc4_keystream_spec [1] [0] (by decide)).1,
   (rc4_keystream_spec [1] [0] (by decide)).2.2.1 0 (by decide),
   (rc4_keystream_spec [1] [0] (by decide)).2.2.2 (by decide)⟩

/-! ## C10 — `decryptNcmFile` with an existing output and no overwrite -/

/-- C10: whenever the pipeline of `decryptNcmFile` reaches its
existence check with computed output path `p` and decoded metadata `md`
(captured by `ncmPlanned`), the file at `p` exists and `overwrite` is
false, the call returns success with path `p` and metadata `md`, writes
nothing, and leaves the whole filesystem — in particular the existing
output file — unchanged. -/
theorem decryptNcmFile_no_overwrite (env : NcmExternal)
    (fs : String → Option (List Nat)) (inputPath : String) (od : Option String)
    (p : String) (md : Option NcmMetadata)
    (hplan : ncmPlanned env fs inputPath ⟨od, false⟩ = some (p, md))
    (hex : (fs p).isSome = true) :
    decryptNcmFile env fs inputPath ⟨od, false⟩ = (fs, ⟨true, some p, md, none⟩) := by
  unfold ncmPlanned at hplan
  unfold decryptNcmFile
  rcases hin : fs inputPath with _ | data
  · rw [hin] at hplan
    simp at hplan
  · rw [hin] at hplan
    dsimp only at hplan ⊢
    rcases hp : parseNcmFile data with e | parsed
    · rw [hp] at hplan
      simp at hplan
    · rw [hp] at hplan
      dsimp only at hplan ⊢
      rcases hk : decryptKey env parsed.keyData with _ | rc4Key
      · rw [hk] at hplan
        simp at hplan
      · rw [hk] at hplan
        dsimp only at hplan ⊢
        simp only [Option.some.injEq, Prod.mk.injEq] at hplan
        obtain ⟨hp1, hp2⟩ := hplan
        rw [hp1, hp2]
        rw [if_pos (show (fs p).isSome = true ∧ false = false from ⟨hex, rfl⟩)]

/-- C10 (witness): a concrete container at `/d/f.ncm` whose decoded
output path `/d/f.mp3` already exists; the no-overwrite call succeeds
with that path and metadata and returns the filesystem unchanged. -/
theorem decryptNcmFile_no_overwrite_witness :
    decryptNcmFile ncmEnvX ncmFsX "/d/f.ncm" ⟨none, false⟩ =
      (ncmFsX, ⟨true, some "/d/f.mp3", some ncmMetaX, none⟩) :=
  decryptNcmFile_no_overwrite ncmEnvX ncmFsX "/d/f.ncm" none "/d/f.mp3"
    (some ncmMetaX) (by decide) (by decide)

end Musync
